import Mathlib

/-!
Verification development for the boto3-refresh-session repository.

Shallow embedding of:
* the client cache-key normalizer (`boto3_refresh_session/utils/cache.py`,
  functions `_freeze_value`, `_config_cache_key`, `ClientCacheKey._create`);
* the LRU and LFU client caches and their doubly linked tracking list
  (`utils/cache.py` classes `LRUClientCache`, `LFUClientCache`;
  `utils/data_structures.py` classes `ListNode`, `DoublyLinkedList`);
* the session client dispatch (`utils/internal.py`, `BRSSession.client`);
* the custom credential validation (`methods/custom.py`,
  `CustomRefreshableSession._get_credentials`);
* the STS role-session-name default (`methods/sts.py`);
* the strategy registry (`utils/internal.py`, `Registry.__init_subclass__`).
-/

namespace BRS

mutual
/-- Python values as they occur in client construction parameters.
`pyconfigOpts opts flds` models a `botocore.config.Config` object whose
`_user_provided_options` dict is `opts` and whose `__dict__` is `flds`;
`pyconfigNoOpts flds` models a config-like object without
`_user_provided_options`.  Dict keys are modelled as strings, which is the
shape of keyword-argument and option dictionaries in this code base. -/
inductive PyVal : Type where
  | pynone : PyVal
  | pybool (b : Bool) : PyVal
  | pyint (n : Int) : PyVal
  | pystr (s : String) : PyVal
  | pytuple (xs : PyVals) : PyVal
  | pylist (xs : PyVals) : PyVal
  | pyset (xs : PyVals) : PyVal
  | pydict (xs : PyPairs) : PyVal
  | pyconfigOpts (opts : PyPairs) (flds : PyPairs) : PyVal
  | pyconfigNoOpts (flds : PyPairs) : PyVal
  deriving DecidableEq

/-- A list of Python values (elements of a tuple, list or set). -/
inductive PyVals : Type where
  | nil : PyVals
  | cons (hd : PyVal) (tl : PyVals) : PyVals
  deriving DecidableEq

/-- The (insertion-ordered) entries of a Python dict with string keys. -/
inductive PyPairs : Type where
  | nil : PyPairs
  | cons (k : String) (v : PyVal) (tl : PyPairs) : PyPairs
  deriving DecidableEq
end

/-- Converts a Lean list of values into the embedded value-list type. -/
def PyVals.ofList : List PyVal → PyVals
  | [] => .nil
  | x :: l => .cons x (PyVals.ofList l)

/-- Converts the embedded value-list type back into a Lean list. -/
def PyVals.toList : PyVals → List PyVal
  | .nil => []
  | .cons x l => x :: PyVals.toList l

/-- Converts a Lean association list into the embedded dict-entry type. -/
def PyPairs.ofList : List (String × PyVal) → PyPairs
  | [] => .nil
  | (k, v) :: l => .cons k v (PyPairs.ofList l)

/-- Converts the embedded dict-entry type back into a Lean association list. -/
def PyPairs.toList : PyPairs → List (String × PyVal)
  | .nil => []
  | .cons k v l => (k, v) :: PyPairs.toList l

theorem PyVals.toListOfListVals : ∀ l : List PyVal, (PyVals.ofList l).toList = l
  | [] => rfl
  | _ :: l => by simp [PyVals.ofList, PyVals.toList, PyVals.toListOfListVals l]

theorem PyPairs.toListOfListPairs :
    ∀ l : List (String × PyVal), (PyPairs.ofList l).toList = l
  | [] => rfl
  | (_, _) :: l => by
      simp [PyPairs.ofList, PyPairs.toList, PyPairs.toListOfListPairs l]

mutual
/-- A fixed, deterministic serialization of values.  It stands in for the
textual form CPython uses when ordering or labelling values (`repr`, and the
total order that `sorted` realizes on the frozen scalars); the claims proved
below never depend on which particular total order that is. -/
def PyVal.ser : PyVal → String
  | .pynone => "None"
  | .pybool b => if b then "True" else "False"
  | .pyint n => toString n
  | .pystr s => "~s:" ++ s
  | .pytuple xs => "(" ++ PyVals.ser xs ++ ")"
  | .pylist xs => "[" ++ PyVals.ser xs ++ "]"
  | .pyset xs => "~set:" ++ PyVals.ser xs
  | .pydict xs => "~dict:" ++ PyPairs.ser xs
  | .pyconfigOpts opts flds =>
      "~cfg:" ++ PyPairs.ser opts ++ ";" ++ PyPairs.ser flds
  | .pyconfigNoOpts flds => "~cfg0:" ++ PyPairs.ser flds

/-- Serialization of a value list. -/
def PyVals.ser : PyVals → String
  | .nil => ""
  | .cons x l => PyVal.ser x ++ "," ++ PyVals.ser l

/-- Serialization of dict entries. -/
def PyPairs.ser : PyPairs → String
  | .nil => ""
  | .cons k v l => k ++ ":" ++ PyVal.ser v ++ "," ++ PyPairs.ser l
end

mutual
/-- Python hashability of a value: scalars and config objects are hashable,
tuples are hashable when all their elements are, and `list`, `set` and
`dict` values are unhashable (`hash` raises `TypeError` on them). -/
def PyVal.hashable : PyVal → Bool
  | .pytuple xs => PyVals.allHashable xs
  | .pylist _ => false
  | .pyset _ => false
  | .pydict _ => false
  | _ => true

/-- Whether every element of a value list is hashable. -/
def PyVals.allHashable : PyVals → Bool
  | .nil => true
  | .cons x l => PyVal.hashable x && PyVals.allHashable l
end

/-- The Python `hash` of a value: defined for hashable values only (a
deterministic function of the value), `none` models the `TypeError` raised
when hashing an unhashable value. -/
def pyHashFn (v : PyVal) : Option Nat :=
  if v.hashable then some v.ser.hash.toNat else none

/-- Lexicographic comparison of character lists (the order Python uses on
strings). -/
def charsLe : List Char → List Char → Bool
  | [], _ => true
  | _ :: _, [] => false
  | a :: as, b :: bs => if a = b then charsLe as bs else decide (a.toNat < b.toNat)

/-- Lexicographic comparison of strings. -/
def strLe (a b : String) : Bool := charsLe a.toList b.toList

theorem charToNat_inj {a b : Char} (h : a.toNat = b.toNat) : a = b := by
  have h2 := congrArg Char.ofNat h
  rwa [Char.ofNat_toNat, Char.ofNat_toNat] at h2

theorem charsLe_total : ∀ as bs : List Char, charsLe as bs = true ∨ charsLe bs as = true
  | [], _ => Or.inl rfl
  | _ :: _, [] => Or.inr rfl
  | a :: as, b :: bs => by
      by_cases hab : a = b
      · subst hab
        simpa [charsLe] using charsLe_total as bs
      · have hn : a.toNat ≠ b.toNat := fun h => hab (charToNat_inj h)
        rcases Nat.lt_or_ge a.toNat b.toNat with h | h
        · exact Or.inl (by simp [charsLe, hab, h])
        · have hba : b.toNat < a.toNat := Nat.lt_of_le_of_ne h (Ne.symm hn)
          exact Or.inr (by simp [charsLe, Ne.symm hab, hba])

theorem charsLe_antisym : ∀ {as bs : List Char},
    charsLe as bs = true → charsLe bs as = true → as = bs
  | [], [], _, _ => rfl
  | [], _ :: _, _, h => by simp [charsLe] at h
  | _ :: _, [], h, _ => by simp [charsLe] at h
  | a :: as, b :: bs, h₁, h₂ => by
      by_cases hab : a = b
      · subst hab
        simp only [charsLe, if_pos rfl] at h₁ h₂
        rw [charsLe_antisym h₁ h₂]
      · simp only [charsLe, if_neg hab, if_neg (Ne.symm hab),
          decide_eq_true_eq] at h₁ h₂
        exact absurd h₂ (Nat.lt_asymm h₁)

theorem charsLe_trans : ∀ {as bs cs : List Char},
    charsLe as bs = true → charsLe bs cs = true → charsLe as cs = true
  | [], _, _, _, _ => rfl
  | _ :: _, [], _, h, _ => by simp [charsLe] at h
  | _ :: _, _ :: _, [], _, h => by simp [charsLe] at h
  | a :: as, b :: bs, c :: cs, h₁, h₂ => by
      by_cases hab : a = b <;> by_cases hbc : b = c
      · subst hab; subst hbc
        simp only [charsLe, if_pos rfl] at h₁ h₂ ⊢
        exact charsLe_trans h₁ h₂
      · subst hab
        simp only [charsLe, if_pos rfl, if_neg hbc] at h₁ h₂
        simp [charsLe, hbc, h₂]
      · subst hbc
        simp only [charsLe, if_neg hab] at h₁
        simp [charsLe, hab, h₁]
      · simp only [charsLe, if_neg hab, if_neg hbc, decide_eq_true_eq] at h₁ h₂
        have hac : a.toNat < c.toNat := Nat.lt_trans h₁ h₂
        have hne : a ≠ c := fun h => absurd (h ▸ hac) (Nat.lt_irrefl _)
        simp [charsLe, hne, hac]

theorem strLe_total (a b : String) : strLe a b = true ∨ strLe b a = true :=
  charsLe_total _ _

theorem strLe_antisym {a b : String} (h₁ : strLe a b = true)
    (h₂ : strLe b a = true) : a = b := by
  have h3 : a.toList = b.toList := charsLe_antisym h₁ h₂
  cases a; cases b
  simp only [String.toList] at h3
  rw [h3]

theorem strLe_trans {a b c : String} (h₁ : strLe a b = true)
    (h₂ : strLe b c = true) : strLe a c = true :=
  charsLe_trans h₁ h₂

/-- Insertion step of the sort `ClientCacheKey._create` performs on
keyword-argument pairs (`sorted(kwargs.items())`, cache.py:144 and 171):
pairs are ordered by their string key.  CPython compares the two tuple
components lexicographically, but the value component is only reached for
equal keys, which cannot occur among the keys of one dict. -/
def insPair (x : String × PyVal) : List (String × PyVal) → List (String × PyVal)
  | [] => [x]
  | y :: l => if strLe x.1 y.1 then x :: y :: l else y :: insPair x l

/-- Sorts dict entries by key (the `sorted` calls of cache.py). -/
def sortPairs : List (String × PyVal) → List (String × PyVal)
  | [] => []
  | x :: l => insPair x (sortPairs l)

/-- Insertion step for sorting frozen set elements (`_freeze_value`,
cache.py:48): the order is the fixed serialization order. -/
def insVal (x : PyVal) : List PyVal → List PyVal
  | [] => [x]
  | y :: l => if strLe x.ser y.ser then x :: y :: l else y :: insVal x l

/-- Sorts frozen set elements (`tuple(sorted(...))`, cache.py:48). -/
def sortVals : List PyVal → List PyVal
  | [] => []
  | x :: l => insVal x (sortVals l)

/-- Sorting of dict entries, on the embedded dict-entry type. -/
def sortPPairs (ps : PyPairs) : PyPairs :=
  PyPairs.ofList (sortPairs ps.toList)

/-- Sorting of set elements, on the embedded value-list type. -/
def sortPyVals (xs : PyVals) : PyVals :=
  PyVals.ofList (sortVals xs.toList)

/-- Turns dict entries `(k, v)` into the 2-tuples `(k, v)` that
`_freeze_value` produces for a dict (cache.py:38-40). -/
def pairsToTuples : PyPairs → PyVals
  | .nil => .nil
  | .cons k v l => .cons (.pytuple (.cons (.pystr k) (.cons v .nil))) (pairsToTuples l)

mutual
/-- `_freeze_value` (cache.py:27-50): recursively freezes a value for use in
cache keys.  A dict becomes the sorted tuple of its `(key, frozen value)`
pairs, lists and tuples become tuples of frozen elements (order preserved),
a set becomes the sorted tuple of its frozen elements, and every other
value — including a config object — is returned unchanged. -/
def PyVal.freeze : PyVal → PyVal
  | .pydict xs => .pytuple (pairsToTuples (sortPPairs (PyPairs.freezeValues xs)))
  | .pylist xs => .pytuple (PyVals.freezeAll xs)
  | .pytuple xs => .pytuple (PyVals.freezeAll xs)
  | .pyset xs => .pytuple (sortPyVals (PyVals.freezeAll xs))
  | v => v

/-- Freezes every element of a value list. -/
def PyVals.freezeAll : PyVals → PyVals
  | .nil => .nil
  | .cons x l => .cons (PyVal.freeze x) (PyVals.freezeAll l)

/-- Freezes the value of every dict entry (keys are left as they are). -/
def PyPairs.freezeValues : PyPairs → PyPairs
  | .nil => .nil
  | .cons k v l => .cons k (PyVal.freeze v) (PyPairs.freezeValues l)
end

/-- Whether a value is a `botocore.config.Config` instance
(the `isinstance(arg, Config)` checks of cache.py:83 and 151). -/
def PyVal.isConfig : PyVal → Bool
  | .pyconfigOpts _ _ => true
  | .pyconfigNoOpts _ => true
  | _ => false

/-- Whether a value is Python `None`. -/
def PyVal.isNone : PyVal → Bool
  | .pynone => true
  | _ => false

/-- `_config_cache_key` (cache.py:53-71): `None` maps to `None`; a config
object with `_user_provided_options` freezes those options; one without
them freezes its `__dict__`.  Any other value (reachable through the
`config` keyword argument, cache.py:162-163) has no
`_user_provided_options` attribute and no `__dict__`, so the source then
freezes the `getattr` fallback `{}`. -/
def configCacheKey : PyVal → PyVal
  | .pynone => .pynone
  | .pyconfigOpts opts _ => PyVal.freeze (.pydict opts)
  | .pyconfigNoOpts flds => PyVal.freeze (.pydict flds)
  | _ => PyVal.freeze (.pydict .nil)

/-- `_format_label_value` (cache.py:74-95), used only for the human-readable
label: config objects render as a sorted option listing, anything else by
its `repr` (modelled by the fixed serialization). -/
def formatLabelValue : PyVal → String
  | .pyconfigOpts opts _ =>
      "Config(" ++ PyPairs.ser (sortPPairs opts) ++ ")"
  | .pyconfigNoOpts flds =>
      "Config(" ++ PyPairs.ser (sortPPairs flds) ++ ")"
  | v => v.ser

/-- First-match lookup in an insertion-ordered dict, `dict.get` /
`dict.__getitem__` on the association-list model. -/
def dictGetStr (l : List (String × PyVal)) (k : String) : Option PyVal :=
  (l.find? (fun p => p.1 == k)).map Prod.snd

/-- Strips trailing `None` positional arguments
(the `while _args and _args[-1] is None: _args.pop()` loop,
cache.py:156-157). -/
def stripTrailingNones (l : List PyVal) : List PyVal :=
  (l.reverse.dropWhile PyVal.isNone).reverse

/-- Turns an association list of keyword pairs into the tuple-of-2-tuples
value `tuple(sorted(_kwargs.items()))` (cache.py:171). -/
def pairsToTuplesL : List (String × PyVal) → PyVals
  | [] => .nil
  | (k, v) :: l => .cons (.pytuple (.cons (.pystr k) (.cons v .nil))) (pairsToTuplesL l)

/-- A `ClientCacheKey` instance: the normalized `key` tuple and the
human-readable `label` (cache.py:98-171). -/
structure ClientCacheKey where
  label : String
  key : PyVal
  deriving DecidableEq

/-- The positional-argument stage of `ClientCacheKey._create`
(cache.py:149-158): replaces config arguments by `_config_cache_key` and
strips trailing `None` values. -/
def normalizeArgs (args : List PyVal) : List PyVal :=
  stripTrailingNones (args.map (fun a => if a.isConfig then configCacheKey a else a))

/-- The keyword-argument stage of `ClientCacheKey._create`
(cache.py:160-168): if the `config` entry is present and not `None`, it is
replaced by `_config_cache_key`; then every `None`-valued entry is
dropped. -/
def normalizeKwargs (kwargs : List (String × PyVal)) : List (String × PyVal) :=
  let kwC := match dictGetStr kwargs "config" with
    | some v =>
        if v.isNone then kwargs
        else kwargs.map (fun (p : String × PyVal) =>
          if p.1 == "config" then (p.1, configCacheKey v) else p)
    | none => kwargs
  kwC.filter (fun p => !p.2.isNone)

/-- `ClientCacheKey._create` (cache.py:137-171): builds the label from the
raw arguments, normalizes the positional and keyword arguments, and forms
`self.key = (_args, tuple(sorted(_kwargs.items())))`. -/
def clientCacheKey (args : List PyVal) (kwargs : List (String × PyVal)) :
    ClientCacheKey :=
  { label := String.intercalate ", "
      (args.map PyVal.ser ++
        (sortPairs kwargs).map (fun p => p.1 ++ "=" ++ formatLabelValue p.2))
    key := .pytuple (.cons (.pytuple (PyVals.ofList (normalizeArgs args)))
             (.cons (.pytuple (pairsToTuplesL (sortPairs (normalizeKwargs kwargs)))) .nil)) }

/-- `ClientCacheKey.__eq__` (cache.py:134-135): equality compares the
normalized `key` only; the label does not participate. -/
def ClientCacheKey.eqb (a b : ClientCacheKey) : Bool :=
  decide (a.key = b.key)

/-- `ClientCacheKey.__hash__` (cache.py:131-132): `hash(self.key)`; the
label does not participate. -/
def ClientCacheKey.pyHash (a : ClientCacheKey) : Option Nat :=
  pyHashFn a.key

/-- The key order used on keyword pairs by `sorted(kwargs.items())`. -/
def pairKeyLe (x y : String × PyVal) : Prop := strLe x.1 y.1 = true

theorem insPair_perm (x : String × PyVal) :
    ∀ l, (insPair x l).Perm (x :: l)
  | [] => List.Perm.refl _
  | y :: l => by
      by_cases h : strLe x.1 y.1
      · simp [insPair, h]
      · simp only [insPair, if_neg h]
        exact ((insPair_perm x l).cons y).trans (List.Perm.swap x y l)

theorem sortPairs_perm : ∀ l, (sortPairs l).Perm l
  | [] => List.Perm.refl _
  | x :: l => (insPair_perm x (sortPairs l)).trans ((sortPairs_perm l).cons x)

theorem insPair_pairwise (x : String × PyVal) :
    ∀ {l}, l.Pairwise pairKeyLe → (insPair x l).Pairwise pairKeyLe
  | [], _ => by simp [insPair, List.pairwise_cons]
  | y :: l, h => by
      rcases List.pairwise_cons.mp h with ⟨hy, hl⟩
      by_cases hxy : strLe x.1 y.1
      · simp only [insPair, if_pos hxy]
        refine List.pairwise_cons.mpr ⟨?_, h⟩
        intro z hz
        rcases List.mem_cons.mp hz with rfl | hz
        · exact hxy
        · exact strLe_trans hxy (hy z hz)
      · simp only [insPair, if_neg hxy]
        have hyx : strLe y.1 x.1 = true :=
          (strLe_total x.1 y.1).resolve_left (by simpa using hxy)
        refine List.pairwise_cons.mpr ⟨?_, insPair_pairwise x hl⟩
        intro z hz
        rcases List.mem_cons.mp ((insPair_perm x l).mem_iff.mp hz) with rfl | hz
        · exact hyx
        · exact hy z hz

theorem sortPairs_pairwise : ∀ l, (sortPairs l).Pairwise pairKeyLe
  | [] => List.Pairwise.nil
  | x :: l => insPair_pairwise x (sortPairs_pairwise l)

theorem sorted_nodup_perm_eq : ∀ {l₁ l₂ : List (String × PyVal)},
    l₁.Perm l₂ → l₁.Pairwise pairKeyLe → l₂.Pairwise pairKeyLe →
    (l₁.map Prod.fst).Nodup → l₁ = l₂
  | [], l₂, h, _, _, _ => h.nil_eq
  | x :: t₁, [], h, _, _, _ => by simpa using h.eq_nil
  | x :: t₁, y :: t₂, h, hp₁, hp₂, hnd => by
      rcases List.pairwise_cons.mp hp₁ with ⟨hx, hp₁t⟩
      rcases List.pairwise_cons.mp hp₂ with ⟨hy, hp₂t⟩
      have hnd2 : (x.1 :: t₁.map Prod.fst).Nodup := by simpa using hnd
      rcases List.nodup_cons.mp hnd2 with ⟨hx1, hndt⟩
      have hxy : x = y := by
        by_cases hq : x = y
        · exact hq
        · have hxm : x ∈ y :: t₂ := h.subset (List.mem_cons_self _ _)
          have hym : y ∈ x :: t₁ := h.symm.subset (List.mem_cons_self _ _)
          have hx2 : x ∈ t₂ := by
            rcases List.mem_cons.mp hxm with h' | h'
            · exact absurd h' hq
            · exact h'
          have hy1 : y ∈ t₁ := by
            rcases List.mem_cons.mp hym with h' | h'
            · exact absurd h'.symm hq
            · exact h'
          have hfst : x.1 = y.1 := strLe_antisym (hx y hy1) (hy x hx2)
          exact absurd (hfst ▸ List.mem_map_of_mem Prod.fst hy1) hx1
      subst hxy
      rw [sorted_nodup_perm_eq h.cons_inv hp₁t hp₂t hndt]

theorem sortPairs_eq_of_perm {l₁ l₂ : List (String × PyVal)} (h : l₁.Perm l₂)
    (hnd : (l₁.map Prod.fst).Nodup) : sortPairs l₁ = sortPairs l₂ :=
  sorted_nodup_perm_eq
    ((sortPairs_perm l₁).trans (h.trans (sortPairs_perm l₂).symm))
    (sortPairs_pairwise l₁) (sortPairs_pairwise l₂)
    ((((sortPairs_perm l₁).map Prod.fst).nodup_iff).mpr hnd)

theorem dictGetStr_perm {l₁ l₂ : List (String × PyVal)} (h : l₁.Perm l₂) :
    (l₁.map Prod.fst).Nodup → ∀ k, dictGetStr l₁ k = dictGetStr l₂ k := by
  induction h with
  | nil => exact fun _ _ => rfl
  | @cons x l₁ l₂ h ih =>
      intro hnd k
      have hndt : (l₁.map Prod.fst).Nodup :=
        (List.nodup_cons.mp (by simpa only [List.map_cons] using hnd)).2
      by_cases hx : x.1 == k
      · simp [dictGetStr, List.find?, hx]
      · simpa [dictGetStr, List.find?, hx] using ih hndt k
  | swap x y l =>
      intro hnd k
      by_cases hx : x.1 == k <;> by_cases hy : y.1 == k
      · exfalso
        have hnd2 : (y.1 :: x.1 :: l.map Prod.fst).Nodup := by
          simpa only [List.map_cons] using hnd
        have h1 : y.1 ∉ x.1 :: l.map Prod.fst := (List.nodup_cons.mp hnd2).1
        have h2 : y.1 = x.1 := (eq_of_beq hy).trans (eq_of_beq hx).symm
        exact h1 (h2 ▸ List.mem_cons_self _ _)
      all_goals simp [dictGetStr, List.find?, hx, hy]
  | trans h₁ h₂ ih₁ ih₂ =>
      intro hnd k
      rw [ih₁ hnd k, ih₂ (((h₁.map Prod.fst).nodup_iff).mp hnd) k]

theorem dictGetStr_append (l₁ l₂ : List (String × PyVal)) (k : String) :
    dictGetStr (l₁ ++ l₂) k =
      match dictGetStr l₁ k with
      | some v => some v
      | none => dictGetStr l₂ k := by
  induction l₁ with
  | nil => simp [dictGetStr]
  | cons x t ih =>
      by_cases hx : x.1 == k
      · simp [dictGetStr, List.find?, hx]
      · simpa [dictGetStr, List.find?, hx] using ih

theorem dictGetStr_some_mem {l : List (String × PyVal)} {k : String} {v : PyVal}
    (h : dictGetStr l k = some v) : k ∈ l.map Prod.fst := by
  induction l with
  | nil => simp [dictGetStr] at h
  | cons x t ih =>
      by_cases hx : x.1 == k
      · exact List.mem_cons.mpr (Or.inl (eq_of_beq hx).symm)
      · simp only [dictGetStr, List.find?, hx] at h
        exact List.mem_cons.mpr (Or.inr (ih h))

/-- The keyword-substitution step of `_create` keeps every pair key. -/
theorem map_fst_configSubst (v : PyVal) (l : List (String × PyVal)) :
    (l.map (fun (p : String × PyVal) =>
      if p.1 == "config" then (p.1, configCacheKey v) else p)).map Prod.fst =
    l.map Prod.fst := by
  have hfst : ∀ p : String × PyVal,
      ((if p.1 == "config" then (p.1, configCacheKey v) else p) :
        String × PyVal).1 = p.1 := by
    intro p
    by_cases h : p.1 == "config" <;> simp [h]
  induction l with
  | nil => rfl
  | cons p t ih => simp only [List.map_cons, hfst, ih]

theorem normalizeKwargs_perm {kw₁ kw₂ : List (String × PyVal)}
    (h : kw₁.Perm kw₂) (hnd : (kw₁.map Prod.fst).Nodup) :
    (normalizeKwargs kw₁).Perm (normalizeKwargs kw₂) ∧
      ((normalizeKwargs kw₁).map Prod.fst).Nodup := by
  have hsub : ∀ (l : List (String × PyVal)) (f : (String × PyVal) → Bool),
      ((l.filter f).map Prod.fst).Nodup → True := fun _ _ _ => trivial
  unfold normalizeKwargs
  rw [dictGetStr_perm h hnd "config"]
  have filterNodup : ∀ {l : List (String × PyVal)}, (l.map Prod.fst).Nodup →
      ((l.filter (fun p => !p.2.isNone)).map Prod.fst).Nodup := by
    intro l hl
    exact List.Nodup.sublist ((List.filter_sublist l).map Prod.fst) hl
  cases hdg : dictGetStr kw₂ "config" with
  | none =>
      exact ⟨(h.filter _), filterNodup hnd⟩
  | some v =>
      by_cases hv : v.isNone
      · simp only [if_pos hv]
        exact ⟨(h.filter _), filterNodup hnd⟩
      · simp only [if_neg hv]
        refine ⟨((h.map _).filter _), filterNodup ?_⟩
        rw [map_fst_configSubst]
        exact hnd

theorem normalizeKwargs_sort_eq {kw₁ kw₂ : List (String × PyVal)}
    (h : kw₁.Perm kw₂) (hnd : (kw₁.map Prod.fst).Nodup) :
    sortPairs (normalizeKwargs kw₁) = sortPairs (normalizeKwargs kw₂) := by
  rcases normalizeKwargs_perm h hnd with ⟨hp, hn⟩
  exact sortPairs_eq_of_perm hp hn

theorem dropWhile_replicate_none :
    ∀ (n : Nat) (l : List PyVal),
      List.dropWhile PyVal.isNone (List.replicate n .pynone ++ l) =
        List.dropWhile PyVal.isNone l
  | 0, _ => rfl
  | n + 1, l => by
      simp only [List.replicate_succ, List.cons_append, List.dropWhile,
        PyVal.isNone]
      exact dropWhile_replicate_none n l

theorem strip_append_replicate (n : Nat) (l : List PyVal) :
    stripTrailingNones (l ++ List.replicate n .pynone) = stripTrailingNones l := by
  unfold stripTrailingNones
  rw [List.reverse_append, List.reverse_replicate, dropWhile_replicate_none]

theorem normalizeArgs_append_replicate (args : List PyVal) (n : Nat) :
    normalizeArgs (args ++ List.replicate n .pynone) = normalizeArgs args := by
  unfold normalizeArgs
  rw [List.map_append, List.map_replicate]
  have h1 : (if (PyVal.pynone).isConfig then configCacheKey .pynone else .pynone) =
      PyVal.pynone := rfl
  rw [h1, strip_append_replicate]

theorem normalizeKwargs_append_none {kw : List (String × PyVal)} {nm : String}
    (hnm : nm ∉ kw.map Prod.fst) :
    normalizeKwargs (kw ++ [(nm, .pynone)]) = normalizeKwargs kw := by
  unfold normalizeKwargs
  rw [dictGetStr_append]
  cases hc : dictGetStr kw "config" with
  | none =>
      by_cases hnc : nm == "config"
      · simp only [dictGetStr, List.find?, hnc]
        simp [PyVal.isNone, List.filter_append, List.filter]
      · simp only [dictGetStr, List.find?, hnc]
        simp [List.filter_append, List.filter, PyVal.isNone]
  | some v =>
      by_cases hv : v.isNone
      · simp only [if_pos hv]
        simp [List.filter_append, List.filter, PyVal.isNone]
      · simp only [if_neg hv]
        have hmem : "config" ∈ kw.map Prod.fst := dictGetStr_some_mem hc
        have hne : (nm == "config") = false := by
          by_cases h : nm = "config"
          · exact absurd (h ▸ hmem) hnm
          · simpa using h
        rw [List.map_append]
        simp only [List.map_cons, List.map_nil, hne]
        simp [List.filter_append, List.filter, PyVal.isNone]

/-- C3: cache keys built from any permutation of the same keyword-argument
set are equal; a key built with trailing `None` positional arguments or an
additional `None`-valued keyword argument equals the key built without them
(in particular `ClientCacheKey("s3", None) == ClientCacheKey("s3")`); and
whenever two keys compare equal (`__eq__`, which inspects only the
normalized `key` tuple), their hashes (`__hash__`, `hash(self.key)`) are
equal. -/
theorem c3_key_normalization
    (args : List PyVal) (kw₁ kw₂ : List (String × PyVal)) (n : Nat)
    (nm : String) (k₁ k₂ : ClientCacheKey)
    (hperm : kw₁.Perm kw₂) (hnd : (kw₁.map Prod.fst).Nodup)
    (hnm : nm ∉ kw₁.map Prod.fst)
    (heq : ClientCacheKey.eqb k₁ k₂ = true) :
    (clientCacheKey args kw₁).key = (clientCacheKey args kw₂).key ∧
    (clientCacheKey (args ++ List.replicate n .pynone) kw₁).key
      = (clientCacheKey args kw₁).key ∧
    (clientCacheKey args (kw₁ ++ [(nm, .pynone)])).key
      = (clientCacheKey args kw₁).key ∧
    k₁.pyHash = k₂.pyHash ∧
    (clientCacheKey [.pystr "s3", .pynone] []).key
      = (clientCacheKey [.pystr "s3"] []).key := by
  refine ⟨?_, ?_, ?_, ?_, by decide⟩
  · simp only [clientCacheKey, normalizeKwargs_sort_eq hperm hnd]
  · simp only [clientCacheKey, normalizeArgs_append_replicate]
  · simp only [clientCacheKey, normalizeKwargs_append_none hnm]
  · have h : k₁.key = k₂.key := of_decide_eq_true heq
    simp only [ClientCacheKey.pyHash, h]

/-- Witness for C3 at concrete inputs: the keyword sets
`{region_name: "us", config: None ... }` in two orders, one trailing `None`
positional argument, and a dropped `None` keyword. -/
theorem c3_key_normalization_witness :
    (clientCacheKey [.pystr "s3"] [("b", .pyint 1), ("a", .pyint 2)]).key
      = (clientCacheKey [.pystr "s3"] [("a", .pyint 2), ("b", .pyint 1)]).key ∧
    (clientCacheKey ([.pystr "s3"] ++ List.replicate 1 .pynone)
        [("b", .pyint 1), ("a", .pyint 2)]).key
      = (clientCacheKey [.pystr "s3"] [("b", .pyint 1), ("a", .pyint 2)]).key ∧
    (clientCacheKey [.pystr "s3"]
        ([("b", .pyint 1), ("a", .pyint 2)] ++ [("x", .pynone)])).key
      = (clientCacheKey [.pystr "s3"] [("b", .pyint 1), ("a", .pyint 2)]).key ∧
    (clientCacheKey [.pystr "s3"] []).pyHash
      = (clientCacheKey [.pystr "s3"] []).pyHash ∧
    (clientCacheKey [.pystr "s3", .pynone] []).key
      = (clientCacheKey [.pystr "s3"] []).key :=
  c3_key_normalization [.pystr "s3"]
    [("b", .pyint 1), ("a", .pyint 2)] [("a", .pyint 2), ("b", .pyint 1)]
    1 "x" (clientCacheKey [.pystr "s3"] []) (clientCacheKey [.pystr "s3"] [])
    (List.Perm.swap ("a", PyVal.pyint 2) ("b", PyVal.pyint 1) [])
    (by decide) (by decide) (by decide)

/-- Whether every value of a dict is hashable. -/
def PyPairs.valuesHashable : PyPairs → Bool
  | .nil => true
  | .cons _ v l => PyVal.hashable v && PyPairs.valuesHashable l

theorem allHashable_ofList (l : List PyVal) :
    PyVals.allHashable (PyVals.ofList l) = l.all PyVal.hashable := by
  induction l with
  | nil => rfl
  | cons x t ih => simp [PyVals.ofList, PyVals.allHashable, ih]

theorem allHashable_toList : ∀ xs : PyVals,
    xs.toList.all PyVal.hashable = PyVals.allHashable xs
  | .nil => rfl
  | .cons x t => by
      simp [PyVals.toList, PyVals.allHashable, allHashable_toList t]

theorem all_insVal (f : PyVal → Bool) (x : PyVal) (l : List PyVal) :
    (insVal x l).all f = (f x && l.all f) := by
  induction l with
  | nil => simp [insVal]
  | cons y t ih =>
      by_cases h : strLe x.ser y.ser
      · simp [insVal, h]
      · simp [insVal, h, ih, Bool.and_left_comm]

theorem all_sortVals (f : PyVal → Bool) (l : List PyVal) :
    (sortVals l).all f = l.all f := by
  induction l with
  | nil => rfl
  | cons x t ih => simp [sortVals, all_insVal, ih]

theorem all_insPair (f : (String × PyVal) → Bool) (x : String × PyVal)
    (l : List (String × PyVal)) : (insPair x l).all f = (f x && l.all f) := by
  induction l with
  | nil => simp [insPair]
  | cons y t ih =>
      by_cases h : strLe x.1 y.1
      · simp [insPair, h]
      · simp [insPair, h, ih, Bool.and_left_comm]

theorem all_sortPairs (f : (String × PyVal) → Bool)
    (l : List (String × PyVal)) : (sortPairs l).all f = l.all f := by
  induction l with
  | nil => rfl
  | cons x t ih => simp [sortPairs, all_insPair, ih]

theorem valuesHashable_toList : ∀ ps : PyPairs,
    ps.toList.all (fun p => PyVal.hashable p.2) = PyPairs.valuesHashable ps
  | .nil => rfl
  | .cons k v t => by
      simp [PyPairs.toList, PyPairs.valuesHashable, valuesHashable_toList t]

theorem valuesHashable_ofList (l : List (String × PyVal)) :
    PyPairs.valuesHashable (PyPairs.ofList l)
      = l.all (fun p => PyVal.hashable p.2) := by
  induction l with
  | nil => rfl
  | cons p t ih => simp [PyPairs.ofList, PyPairs.valuesHashable, ih]

theorem valuesHashable_sortPPairs (ps : PyPairs) :
    PyPairs.valuesHashable (sortPPairs ps) = PyPairs.valuesHashable ps := by
  unfold sortPPairs
  rw [valuesHashable_ofList, all_sortPairs, valuesHashable_toList]

theorem pairsToTuples_hashable : ∀ ps : PyPairs,
    PyVals.allHashable (pairsToTuples ps) = PyPairs.valuesHashable ps
  | .nil => rfl
  | .cons k v t => by
      simp [pairsToTuples, PyVals.allHashable, PyVal.hashable,
        PyPairs.valuesHashable, pairsToTuples_hashable t]

mutual
theorem PyVal.freeze_hashable : ∀ v : PyVal, (PyVal.freeze v).hashable = true
  | .pynone => rfl
  | .pybool _ => rfl
  | .pyint _ => rfl
  | .pystr _ => rfl
  | .pyconfigOpts _ _ => rfl
  | .pyconfigNoOpts _ => rfl
  | .pytuple xs => by
      simpa [PyVal.freeze, PyVal.hashable] using PyVals.freezeAll_hashable xs
  | .pylist xs => by
      simpa [PyVal.freeze, PyVal.hashable] using PyVals.freezeAll_hashable xs
  | .pyset xs => by
      simp only [PyVal.freeze, PyVal.hashable]
      unfold sortPyVals
      rw [allHashable_ofList, all_sortVals, allHashable_toList]
      exact PyVals.freezeAll_hashable xs
  | .pydict xs => by
      simp only [PyVal.freeze, PyVal.hashable]
      rw [pairsToTuples_hashable, valuesHashable_sortPPairs]
      exact PyPairs.freezeValues_hashable xs

theorem PyVals.freezeAll_hashable :
    ∀ xs : PyVals, PyVals.allHashable (PyVals.freezeAll xs) = true
  | .nil => rfl
  | .cons x l => by
      simp [PyVals.freezeAll, PyVals.allHashable, PyVal.freeze_hashable x,
        PyVals.freezeAll_hashable l]

theorem PyPairs.freezeValues_hashable :
    ∀ ps : PyPairs, PyPairs.valuesHashable (PyPairs.freezeValues ps) = true
  | .nil => rfl
  | .cons k v l => by
      simp [PyPairs.freezeValues, PyPairs.valuesHashable,
        PyVal.freeze_hashable v, PyPairs.freezeValues_hashable l]
end

theorem freezeValues_ofList (l : List (String × PyVal)) :
    PyPairs.freezeValues (PyPairs.ofList l)
      = PyPairs.ofList (l.map (fun p => (p.1, PyVal.freeze p.2))) := by
  induction l with
  | nil => rfl
  | cons p t ih =>
      cases p with
      | mk k v => simp [PyPairs.ofList, PyPairs.freezeValues, ih]

theorem sortPPairs_ofList (l : List (String × PyVal)) :
    sortPPairs (PyPairs.ofList l) = PyPairs.ofList (sortPairs l) := by
  unfold sortPPairs
  rw [PyPairs.toListOfListPairs]

theorem map_fst_freezeMap (l : List (String × PyVal)) :
    (l.map (fun p => (p.1, PyVal.freeze p.2))).map Prod.fst = l.map Prod.fst := by
  induction l with
  | nil => rfl
  | cons p t ih => simp [ih]

/-- C5 counterexample: a `set`-valued keyword argument is not frozen by key
normalization — the normalized key retains the raw set — and the resulting
key is not hashable, contrary to the claim that any mapping, sequence or set
is recursively frozen and that the keys are hashable. -/
theorem c5_counterexample :
    (clientCacheKey []
      [("x", .pyset (.cons (.pyint 1) (.cons (.pyint 2) .nil)))]).key
      = .pytuple (.cons (.pytuple .nil)
          (.cons (.pytuple (.cons (.pytuple (.cons (.pystr "x")
            (.cons (.pyset (.cons (.pyint 1) (.cons (.pyint 2) .nil))) .nil)))
            .nil)) .nil)) ∧
    (clientCacheKey []
      [("x", .pyset (.cons (.pyint 1) (.cons (.pyint 2) .nil)))]).pyHash
      = none :=
  ⟨by decide, by decide⟩

/-- C5 amended: `_freeze_value` is applied only to configuration objects (a
positional `Config` argument or the `config` keyword argument), where it
recursively turns mappings and sets into sorted tuples; hence keys built
from config objects with the same user-provided options in different order
are equal and hashable, and every frozen value is hashable.  Composite
values elsewhere in the arguments are left unfrozen and can make a key
unhashable (see the counterexample). -/
theorem c5_config_freezing
    (opts₁ opts₂ : List (String × PyVal)) (f₁ f₂ : PyPairs) (v : PyVal)
    (hperm : opts₁.Perm opts₂) (hnd : (opts₁.map Prod.fst).Nodup) :
    (clientCacheKey [.pyconfigOpts (PyPairs.ofList opts₁) f₁] []).key
      = (clientCacheKey [.pyconfigOpts (PyPairs.ofList opts₂) f₂] []).key ∧
    PyVal.hashable
      (clientCacheKey [.pyconfigOpts (PyPairs.ofList opts₁) f₁] []).key
      = true ∧
    PyVal.hashable (PyVal.freeze v) = true := by
  have hfr : PyVal.freeze (.pydict (PyPairs.ofList opts₁))
      = PyVal.freeze (.pydict (PyPairs.ofList opts₂)) := by
    simp only [PyVal.freeze]
    rw [freezeValues_ofList, freezeValues_ofList, sortPPairs_ofList,
      sortPPairs_ofList]
    have hsort : sortPairs (opts₁.map (fun p => (p.1, PyVal.freeze p.2)))
        = sortPairs (opts₂.map (fun p => (p.1, PyVal.freeze p.2))) := by
      refine sortPairs_eq_of_perm (hperm.map _) ?_
      rw [map_fst_freezeMap]
      exact hnd
    rw [hsort]
  refine ⟨?_, ?_, PyVal.freeze_hashable v⟩
  · simp only [clientCacheKey, normalizeArgs, List.map, PyVal.isConfig,
      if_true, configCacheKey, hfr]
  · simp only [clientCacheKey, normalizeArgs, List.map, PyVal.isConfig,
      if_true, configCacheKey]
    have hstrip : PyVals.ofList (stripTrailingNones
        [PyVal.freeze (.pydict (PyPairs.ofList opts₁))])
        = PyVals.cons (PyVal.freeze (.pydict (PyPairs.ofList opts₁))) .nil := rfl
    have hkw : pairsToTuplesL (sortPairs (normalizeKwargs
        ([] : List (String × PyVal)))) = PyVals.nil := rfl
    rw [hstrip, hkw]
    show (PyVal.hashable (PyVal.freeze (.pydict (PyPairs.ofList opts₁))) && true)
        && (true && true) = true
    rw [PyVal.freeze_hashable]
    rfl

/-- Witness for C5's amended theorem: two config objects with the same two
user-provided options in swapped order. -/
theorem c5_config_freezing_witness :
    (clientCacheKey [.pyconfigOpts (PyPairs.ofList
        [("retries", .pyint 2), ("region_name", .pystr "us")]) .nil] []).key
      = (clientCacheKey [.pyconfigOpts (PyPairs.ofList
        [("region_name", .pystr "us"), ("retries", .pyint 2)]) .nil] []).key ∧
    PyVal.hashable (clientCacheKey [.pyconfigOpts (PyPairs.ofList
        [("retries", .pyint 2), ("region_name", .pystr "us")]) .nil] []).key
      = true ∧
    PyVal.hashable (PyVal.freeze (.pylist (.cons .pynone .nil))) = true :=
  c5_config_freezing
    [("retries", .pyint 2), ("region_name", .pystr "us")]
    [("region_name", .pystr "us"), ("retries", .pyint 2)]
    .nil .nil (.pylist (.cons .pynone .nil))
    (List.Perm.swap ("region_name", PyVal.pystr "us")
      ("retries", PyVal.pyint 2) [])
    (by decide)

/-! ## The LRU / LFU client caches

`utils/data_structures.py` defines `ListNode` (fields `value`, `items`,
`previous_node`, `next_node`) and `DoublyLinkedList` (`head`, `tail`).
Nodes are mutable heap objects that alias each other through their
`previous_node`/`next_node` references, so the embedding carries an explicit
node store (`Heap`) addressed by allocation index, and every attribute read
or write of the Python code becomes a store read or pointwise update, in
statement order.

`utils/cache.py` consistently constructs tracking nodes with a keyword
argument `data` (cache.py:434) and reads/writes a node attribute `data`
(cache.py:411, 444, 528, 531-532, 555, 564, 568, 571, 578) — but
`ListNode.__init__` accepts only `value`, `items`, `previous_node` and
`next_node`, and sets only those attributes.  The operations `lruSet`,
`lruGet`, `lfuSet`, `lfuGet` below embed the cache algorithms under the
reading that the payload keyword/attribute `data` resolves to `ListNode`'s
payload field `items`; the variants suffixed `Py` additionally model the
Python name resolution itself (keyword-call and attribute checks against
the declared `ListNode` surface), which is the subject of claims C9 and
C6. -/

/-- `ListNode` (data_structures.py:25-40): `value` (an int for LFU frequency
buckets, absent for LRU nodes), the payload set of keys (`items`, modelled
as a duplicate-free list), and the two link references (node indices into
the heap). -/
structure ListNode (K : Type) where
  value : Option Int
  items : List K
  previous_node : Option Nat
  next_node : Option Nat
  deriving DecidableEq

/-- The explicit node store: a total map from allocation indices to nodes
plus the next fresh index. -/
structure Heap (K : Type) where
  nodes : Nat → ListNode K
  fresh : Nat

/-- Pointwise update of one node. -/
def Heap.set (h : Heap K) (i : Nat) (f : ListNode K → ListNode K) : Heap K :=
  { h with nodes := fun j => if j = i then f (h.nodes j) else h.nodes j }

/-- `ListNode.__init__` (data_structures.py:25-40): allocates the node and,
when `previous_node` (resp. `next_node`) is given, sets that node's
`next_node` (resp. `previous_node`) back-reference to the new node, in that
order. -/
def Heap.newNode (h : Heap K) (value : Option Int) (items : List K)
    (previous_node next_node : Option Nat) : Nat × Heap K :=
  let i := h.fresh
  let h1 : Heap K :=
    { nodes := fun j => if j = i then
        ⟨value, items, previous_node, next_node⟩ else h.nodes j
      fresh := h.fresh + 1 }
  let h2 := match previous_node with
    | some p => h1.set p (fun n => { n with next_node := some i })
    | none => h1
  let h3 := match next_node with
    | some q => h2.set q (fun n => { n with previous_node := some i })
    | none => h2
  (i, h3)

/-- `_CacheItem` (cache.py:174-184): the stored client and a reference to
its tracking node. -/
structure CacheItem (V : Type) where
  data : V
  tracking_node : Nat
  deriving DecidableEq

/-- The state of one `BaseCache` instance (cache.py:204-208): `max_size`,
the insertion-ordered `_cache` dict, and the `_tracking` doubly linked list
(its node heap and `head`/`tail` pointers). -/
structure CacheState (K V : Type) where
  max_size : Nat
  cache : List (K × CacheItem V)
  heap : Heap K
  head : Option Nat
  tail : Option Nat

/-- `BaseCache.__init__` (cache.py:204-208): `max_size =
abs(max_size if max_size is not None else 10)`, empty dict, empty tracking
list. -/
def initCache (K V : Type) (m : Option Int) : CacheState K V :=
  { max_size := (m.getD 10).natAbs
    cache := []
    heap := { nodes := fun _ => ⟨none, [], none, none⟩, fresh := 0 }
    head := none
    tail := none }

def CacheState.node (s : CacheState K V) (i : Nat) : ListNode K :=
  s.heap.nodes i

def CacheState.setNode (s : CacheState K V) (i : Nat)
    (f : ListNode K → ListNode K) : CacheState K V :=
  { s with heap := s.heap.set i f }

/-- First-match lookup in the `_cache` dict. -/
def cacheLookup [DecidableEq K] (l : List (K × CacheItem V)) (k : K) :
    Option (CacheItem V) :=
  (l.find? (fun p => p.1 == k)).map Prod.snd

/-- `del self._cache[key]` on the association-list dict (the key is unique
in an insertion-ordered dict). -/
def cacheDel [DecidableEq K] (l : List (K × CacheItem V)) (k : K) :
    List (K × CacheItem V) :=
  l.filter (fun p => !(p.1 == k))

/-- Python `set.add`: no effect when the element is present, otherwise the
element joins the set. -/
def pySetAdd [DecidableEq K] (l : List K) (k : K) : List K :=
  if l.contains k then l else l ++ [k]

/-- Python `s == {key}`: membership-based equality with the singleton. -/
def pySetEqSingleton [DecidableEq K] (l : List K) (k : K) : Bool :=
  l.all (fun x => x == k) && !l.isEmpty

/-- `DoublyLinkedList.remove` (data_structures.py:83-95), with the
attribute reads performed in statement order (the second statement re-reads
`node.next_node`, which matters when the removed node aliases its
neighbour). -/
def CacheState.dllRemove (s : CacheState K V) (n : Nat) : CacheState K V :=
  let np := (s.node n).previous_node
  let nn := (s.node n).next_node
  let s1 := match np with
    | some p => s.setNode p (fun x => { x with next_node := nn })
    | none => { s with head := nn }
  let nn2 := (s1.node n).next_node
  let np2 := (s1.node n).previous_node
  match nn2 with
  | some q => s1.setNode q (fun x => { x with previous_node := np2 })
  | none => { s1 with tail := np2 }

/-- `DoublyLinkedList.append` (data_structures.py:105-119). -/
def CacheState.dllAppend (s : CacheState K V) (n : Nat) : CacheState K V :=
  let s1 := match s.tail with
    | some t =>
        let sA := s.setNode t (fun x => { x with next_node := some n })
        sA.setNode n (fun x => { x with previous_node := some t })
    | none => s
  let s2 := s1.setNode n (fun x => { x with next_node := none })
  let s3 := { s2 with tail := some n }
  match s3.head with
  | none => { s3 with head := some n }
  | some _ => s3

/-- `DoublyLinkedList.move_to_end` (data_structures.py:97-103). -/
def CacheState.dllMoveToEnd (s : CacheState K V) (n : Nat) : CacheState K V :=
  (s.dllRemove n).dllAppend n

/-- The Python errors the cache operations can raise.  `brsCacheError`,
`brsCacheExists` and `brsCacheNotFound` are the library's cache error kinds
(cache.py raises them explicitly); `typeError`, `attributeError` and
`keyError` are Python builtins; `nonterminating` marks an infinite loop of
the `_evict` bucket walk. -/
inductive PyErr where
  | typeError
  | attributeError
  | keyError
  | nonterminating
  | brsCacheError
  | brsCacheExists
  | brsCacheNotFound
  deriving DecidableEq

/-- The keyword parameters accepted by `ListNode.__init__`
(data_structures.py:25-31). -/
def listNodeInitParams : List String :=
  ["value", "items", "previous_node", "next_node"]

/-- The attributes a `ListNode` instance exposes (set in `__init__`,
data_structures.py:32-35). -/
def listNodeAttrs : List String :=
  ["value", "items", "previous_node", "next_node"]

/-- Python keyword-call semantics for `ListNode(...)`: a keyword not among
the declared parameters raises `TypeError`. -/
def pyListNodeKeywordCall (given : List String) : Except PyErr Unit :=
  if given.all (fun g => listNodeInitParams.contains g) then .ok ()
  else .error .typeError

/-- Python attribute lookup on a `ListNode`: an attribute never assigned
raises `AttributeError`. -/
def pyListNodeReadAttr (a : String) : Except PyErr Unit :=
  if listNodeAttrs.contains a then .ok () else .error .attributeError

/-- `LRUClientCache.get` (cache.py:396-415), with `node.data` read as the
payload field: on a hit, the item's tracking node is moved to the end of
the tracking list; if the tracking head's payload then equals `{key}`, the
head pointer is replaced by the head's `next_node`; the stored client is
returned.  On a miss the `default` (`None`) is returned. -/
def lruGet [DecidableEq K] (s : CacheState K V) (k : K) :
    Except PyErr (Option V × CacheState K V) :=
  match cacheLookup s.cache k with
  | none => .ok (none, s)
  | some item =>
      let s1 := s.dllMoveToEnd item.tracking_node
      match s1.head with
      | none => .error .attributeError
      | some h =>
          if pySetEqSingleton ((s1.node h).items) k then
            .ok (some item.data, { s1 with head := (s1.node h).next_node })
          else .ok (some item.data, s1)

/-- The body of `LRUClientCache.set` after the already-exists check
(cache.py:433-446), with the tracking-node payload keyword resolved to the
payload field: allocate the tracking node holding `{key}`, insert the cache
item, append the node; if the dict now exceeds `max_size`, pop a key out of
the head node's payload, delete it from the dict and remove the head node.
`set.pop` on an empty set and `del` of an absent key raise `KeyError`;
reading attributes of a `None` head raises `AttributeError`. -/
def lruSetBody [DecidableEq K] (s : CacheState K V) (k : K) (v : V) :
    Except PyErr (CacheState K V) :=
  let (nid, h1) := s.heap.newNode none [k] none none
  let s1 : CacheState K V :=
    { s with heap := h1, cache := s.cache ++ [(k, ⟨v, nid⟩)] }
  let s2 := s1.dllAppend nid
  if s2.cache.length > s2.max_size then
    match s2.head with
    | none => .error .attributeError
    | some h =>
        match (s2.node h).items with
        | [] => .error .keyError
        | fk :: rest =>
            let s3 := s2.setNode h (fun x => { x with items := rest })
            if (cacheLookup s3.cache fk).isSome then
              let s4 : CacheState K V :=
                { s3 with cache := cacheDel s3.cache fk }
              match s4.head with
              | none => .error .attributeError
              | some h2 => .ok (s4.dllRemove h2)
            else .error .keyError
  else .ok s2

/-- `LRUClientCache.set` (cache.py:425-446) with the payload keyword
resolved: the wrong-key-type check is rendered vacuous by the typed
embedding (every `k : K` is a `ClientCacheKey`); a present key raises the
already-exists error before any mutation. -/
def lruSet [DecidableEq K] (s : CacheState K V) (k : K) (v : V) :
    Except PyErr (CacheState K V) :=
  if (cacheLookup s.cache k).isSome then .error .brsCacheExists
  else lruSetBody s k v

/-- `LRUClientCache.set` as the source executes against
`data_structures.py`'s `ListNode`: line 434 constructs the tracking node
with keyword `data`, which is not a parameter of `ListNode.__init__`. -/
def lruSetPy [DecidableEq K] (s : CacheState K V) (k : K) (v : V) :
    Except PyErr (CacheState K V) :=
  if (cacheLookup s.cache k).isSome then .error .brsCacheExists
  else do
    _ ← pyListNodeKeywordCall ["data"]
    lruSetBody s k v

/-- `LRUClientCache.get` as the source executes against `ListNode`: on a
hit, after `move_to_end`, line 411 reads `self._tracking.head.data`, an
attribute a `ListNode` does not have. -/
def lruGetPy [DecidableEq K] (s : CacheState K V) (k : K) :
    Except PyErr (Option V × CacheState K V) :=
  match cacheLookup s.cache k with
  | none => .ok (none, s)
  | some item => do
      let s1 := s.dllMoveToEnd item.tracking_node
      _ ← pyListNodeReadAttr "data"
      match s1.head with
      | none => .error .attributeError
      | some h =>
          if pySetEqSingleton ((s1.node h).items) k then
            .ok (some item.data, { s1 with head := (s1.node h).next_node })
          else .ok (some item.data, s1)

/-- The bucket walk of `LFUClientCache._evict` (cache.py:562-567): from the
tracking head, follow `next_node` until a node with a non-empty payload is
found.  Walking off a `None` reference raises `AttributeError`
(`current_node.data` on `None`); the fuel bounds the walk, which in Python
loops forever on a cycle of empty buckets. -/
def lfuEvictWalk (s : CacheState K V) : Nat → Option Nat → Except PyErr Nat
  | _, none => .error .attributeError
  | 0, some _ => .error .nonterminating
  | fuel + 1, some i =>
      if (s.node i).items.isEmpty then lfuEvictWalk s fuel (s.node i).next_node
      else .ok i

/-- `LFUClientCache._evict` (cache.py:558-572), payload reads resolved to
the payload field: nothing happens below `max_size`; otherwise pop a key
from the first non-empty bucket, delete it from the dict, and remove the
head bucket if its payload is empty. -/
def lfuEvict [DecidableEq K] (s : CacheState K V) :
    Except PyErr (CacheState K V) :=
  if !(s.cache.length ≥ s.max_size) then .ok s
  else do
    let i ← lfuEvictWalk s (s.heap.fresh + 1) s.head
    match (s.node i).items with
    | [] => .error .keyError
    | kd :: rest =>
        let s1 := s.setNode i (fun x => { x with items := rest })
        if (cacheLookup s1.cache kd).isSome then
          let s2 : CacheState K V := { s1 with cache := cacheDel s1.cache kd }
          match s2.head with
          | none => .error .attributeError
          | some h =>
              if (s2.node h).items.isEmpty then .ok (s2.dllRemove h)
              else .ok s2
        else .error .keyError

/-- The body of `LFUClientCache.set` after the already-exists check
(cache.py:545-556), payload reads resolved: select (or create) the
frequency-1 bucket as the new head — the creation passes both
`previous_node` and `next_node` as the old head (cache.py:547-551) — then
`_evict()`, then add the key to the selected bucket and insert the cache
item. -/
def lfuSetBody [DecidableEq K] (s : CacheState K V) (k : K) (v : V) :
    Except PyErr (CacheState K V) :=
  let (fId, s1) := match s.head with
    | none =>
        let (nid, h1) := s.heap.newNode (some 1) [] none none
        (nid, ({ s with heap := h1, head := some nid } : CacheState K V))
    | some f0 =>
        if (s.node f0).value ≠ some 1 then
          let (nid, h1) := s.heap.newNode (some 1) [] (some f0) (some f0)
          (nid, ({ s with heap := h1, head := some nid } : CacheState K V))
        else (f0, s)
  do
    let s2 ← lfuEvict s1
    let s3 := s2.setNode fId (fun x => { x with items := pySetAdd x.items k })
    .ok { s3 with cache := s3.cache ++ [(k, ⟨v, fId⟩)] }

/-- `LFUClientCache.set` (cache.py:537-556) with the payload attribute
resolved. -/
def lfuSet [DecidableEq K] (s : CacheState K V) (k : K) (v : V) :
    Except PyErr (CacheState K V) :=
  if (cacheLookup s.cache k).isSome then .error .brsCacheExists
  else lfuSetBody s k v

/-- `LFUClientCache.set` as the source executes against `ListNode`: the
bucket-node construction (cache.py:547-551) uses only declared keywords,
but the next step reads attribute `data` — in `_evict`'s walk
(cache.py:564) when at capacity, or in `frequency.data.add(key)`
(cache.py:555) below capacity — which a `ListNode` does not have. -/
def lfuSetPy [DecidableEq K] (s : CacheState K V) (k : K) (v : V) :
    Except PyErr (CacheState K V) :=
  if (cacheLookup s.cache k).isSome then .error .brsCacheExists
  else do
    _ ← pyListNodeReadAttr "data"
    lfuSetBody s k v

/-- The bucket-promotion part of `LFUClientCache.get`'s hit branch
(cache.py:508-533), payload reads resolved to the payload field: promote
the key from its bucket to a bucket of value `frequency+1` (creating and
linking it if the successor is absent or has another value), move the
item's tracking reference, remove the key from the old bucket and drop the
bucket from the tracking list if its payload emptied. -/
def lfuGetTouch [DecidableEq K] (s : CacheState K V) (k : K)
    (item : CacheItem V) : Except PyErr (CacheState K V) :=
  let fId := item.tracking_node
  match (s.node fId).value with
  | none => .error .typeError
  | some fv =>
      let s1 := match (s.node fId).next_node with
        | none =>
            let (nid, h1) := s.heap.newNode (some (fv + 1)) [] (some fId) none
            let sA : CacheState K V := { s with heap := h1 }
            sA.setNode fId (fun x => { x with next_node := some nid })
        | some _ => s
      match (s1.node fId).next_node with
      | none => .error .attributeError
      | some nf =>
          let (nf2, s2) :=
            if (s1.node nf).value ≠ some (fv + 1) then
              let (nid, h2) :=
                s1.heap.newNode (some (fv + 1)) [] (some fId) (some nf)
              (nid, ({ s1 with heap := h2 } : CacheState K V))
            else (nf, s1)
          let s3 := s2.setNode nf2
            (fun x => { x with items := pySetAdd x.items k })
          let s4 : CacheState K V :=
            { s3 with cache := s3.cache.map (fun p =>
                if p.1 == k then (p.1, ⟨item.data, nf2⟩) else p) }
          if (s4.node fId).items.contains k then
            let s5 := s4.setNode fId
              (fun x => { x with items := x.items.erase k })
            if (s5.node fId).items.isEmpty then
              .ok (s5.dllRemove fId)
            else .ok s5
          else .error .keyError

/-- `LFUClientCache.get` (cache.py:502-535): a miss returns the default;
a hit performs the bucket promotion and returns `item.data` (the same
stored client at both of the source's return points). -/
def lfuGet [DecidableEq K] (s : CacheState K V) (k : K) :
    Except PyErr (Option V × CacheState K V) :=
  match cacheLookup s.cache k with
  | none => .ok (none, s)
  | some item =>
      (lfuGetTouch s k item).map (fun s' => (some item.data, s'))

/-- `LFUClientCache.get` as the source executes against `ListNode`: on a
hit, the first payload access is `next_frequency.data.add(key)`
(cache.py:528), an attribute a `ListNode` does not have. -/
def lfuGetPy [DecidableEq K] (s : CacheState K V) (k : K) :
    Except PyErr (Option V × CacheState K V) :=
  match cacheLookup s.cache k with
  | none => .ok (none, s)
  | some _ => do
      _ ← pyListNodeReadAttr "data"
      lfuGet s k

/-- One cache call in a test scenario. -/
inductive CacheOp (K V : Type) where
  | setOp (k : K) (v : V)
  | getOp (k : K)

/-- Runs a scenario against the LRU cache (get results discarded). -/
def runLRU [DecidableEq K] :
    CacheState K V → List (CacheOp K V) → Except PyErr (CacheState K V)
  | s, [] => .ok s
  | s, .setOp k v :: ops => do runLRU (← lruSet s k v) ops
  | s, .getOp k :: ops => do runLRU (← lruGet s k).2 ops

/-- Runs a scenario against the LFU cache (get results discarded). -/
def runLFU [DecidableEq K] :
    CacheState K V → List (CacheOp K V) → Except PyErr (CacheState K V)
  | s, [] => .ok s
  | s, .setOp k v :: ops => do runLFU (← lfuSet s k v) ops
  | s, .getOp k :: ops => do runLFU (← lfuGet s k).2 ops

/-- The dict keys of a run's final state (`None` when the run raised). -/
def runKeys (r : Except PyErr (CacheState K V)) : Option (List K) :=
  match r with
  | .ok s => some (s.cache.map Prod.fst)
  | .error _ => none

/-- The tracking-node `value` (the LFU frequency) of a key after a run. -/
def runTrackValue [DecidableEq K] (r : Except PyErr (CacheState K V)) (k : K) :
    Option (Option Int) :=
  match r with
  | .ok s =>
      match cacheLookup s.cache k with
      | some item => some ((s.node item.tracking_node).value)
      | none => none
  | .error _ => none

theorem dllAppend_head_isSome (s : CacheState K V) (n : Nat) :
    ((s.dllAppend n).head).isSome = true := by
  unfold CacheState.dllAppend
  cases s.tail <;> cases hh2 : s.head <;> simp [hh2, CacheState.setNode]

theorem dllAppend_cache (s : CacheState K V) (n : Nat) :
    (s.dllAppend n).cache = s.cache := by
  unfold CacheState.dllAppend
  cases s.tail <;> cases hh2 : s.head <;> simp [hh2, CacheState.setNode]

theorem dllAppend_max_size (s : CacheState K V) (n : Nat) :
    (s.dllAppend n).max_size = s.max_size := by
  unfold CacheState.dllAppend
  cases s.tail <;> cases hh2 : s.head <;> simp [hh2, CacheState.setNode]

theorem cacheLookup_append_self [DecidableEq K]
    (l : List (K × CacheItem V)) (k : K) (it : CacheItem V)
    (h : cacheLookup l k = none) : cacheLookup (l ++ [(k, it)]) k = some it := by
  induction l with
  | nil => simp [cacheLookup, List.find?]
  | cons p t ih =>
      by_cases hp : p.1 == k
      · simp [cacheLookup, List.find?, hp] at h
      · simp only [cacheLookup, List.cons_append, List.find?, hp] at h ⊢
        exact ih h

/-- On a hit, `lruGet` returns the stored client (cache.py:414 returns
`item.data`, read before any tracking mutation). -/
theorem lruGet_hit_value [DecidableEq K] (s : CacheState K V) (k : K)
    (it : CacheItem V) (h : cacheLookup s.cache k = some it) :
    (lruGet s k).map Prod.fst = .ok (some it.data) := by
  unfold lruGet
  rw [h]
  have hh := dllAppend_head_isSome (s.dllRemove it.tracking_node)
    it.tracking_node
  unfold CacheState.dllMoveToEnd
  cases hhead :
      ((s.dllRemove it.tracking_node).dllAppend it.tracking_node).head with
  | none => rw [hhead] at hh; simp at hh
  | some hd =>
      by_cases hif : pySetEqSingleton
          ((((s.dllRemove it.tracking_node).dllAppend
            it.tracking_node)).node hd).items k <;>
        simp [hhead, hif, Except.map]

/-- Whatever `lfuGet` returns on a hit, it is the stored client
(cache.py:534 returns `item.data`). -/
theorem lfuGet_hit_value [DecidableEq K] (s : CacheState K V) (k : K)
    (it : CacheItem V) (r : Option V)
    (h : cacheLookup s.cache k = some it)
    (hq : (lfuGet s k).map Prod.fst = .ok r) : r = some it.data := by
  have hlg : lfuGet s k
      = (lfuGetTouch s k it).map (fun w => (some it.data, w)) := by
    unfold lfuGet
    rw [h]
  rw [hlg] at hq
  cases ht : lfuGetTouch s k it with
  | error e => rw [ht] at hq; simp [Except.map] at hq
  | ok w =>
      rw [ht] at hq
      simp [Except.map] at hq
      exact hq.symm

/-- C4: for every LRU or LFU cache state and every key already present,
`set(key, value)` raises `BRSCacheExistsError` (cache.py:430-431 and
542-543, before any mutation — the raise aborts the method, so the cache is
unchanged), and a subsequent `get(key)` yields the originally stored
client: unconditionally for the LRU cache, and for the LFU cache any
non-raising `get` returns the original client. -/
theorem c4_no_silent_overwrite [DecidableEq K] (s t : CacheState K V)
    (k : K) (w : V) (it itf : CacheItem V) (r : Option V)
    (hl : cacheLookup s.cache k = some it)
    (hf : cacheLookup t.cache k = some itf)
    (hr : (lfuGet t k).map Prod.fst = .ok r) :
    lruSet s k w = .error .brsCacheExists ∧
    lfuSet t k w = .error .brsCacheExists ∧
    (lruGet s k).map Prod.fst = .ok (some it.data) ∧
    r = some itf.data := by
  refine ⟨?_, ?_, lruGet_hit_value s k it hl, lfuGet_hit_value t k itf r hf hr⟩
  · simp [lruSet, hl]
  · simp [lfuSet, hf]

/-- A small LRU/LFU cache state holding one client under key `"k1"`:
`max_size = 2`, one tracking node of frequency 1 whose payload is
`{"k1"}`. -/
def witState : CacheState String Nat :=
  { max_size := 2
    cache := [("k1", ⟨7, 0⟩)]
    heap := { nodes := fun _ => ⟨some 1, ["k1"], none, none⟩, fresh := 1 }
    head := some 0
    tail := some 0 }

/-- Witness for C4 at the concrete one-entry cache state. -/
theorem c4_no_silent_overwrite_witness :
    lruSet witState "k1" 9 = .error .brsCacheExists ∧
    lfuSet witState "k1" 9 = .error .brsCacheExists ∧
    (lruGet witState "k1").map Prod.fst = .ok (some (7 : Nat)) ∧
    (some (7 : Nat)) = some (7 : Nat) :=
  c4_no_silent_overwrite witState witState "k1" 9 ⟨7, 0⟩ ⟨7, 0⟩ (some 7)
    (by decide) (by decide) (by rfl)

/-- The LRU scenario of the claim: keys K1, K2 into a size-2 cache, read
K1, insert K3. -/
def lruOps2 : List (CacheOp String Nat) :=
  [.setOp "k1" 1, .setOp "k2" 2, .getOp "k1", .setOp "k3" 3]

/-- A three-call LRU scenario on a size-1 cache: insert K1, read K1,
insert K2. -/
def lruOps1 : List (CacheOp String Nat) :=
  [.setOp "k1" 1, .getOp "k1", .setOp "k2" 2]

/-- C1: under the payload-field reading of the tracking nodes, the claim's
own size-2 scenario holds (K2 is evicted; K1 and K3 remain), but the
universal statement "an insert past `max_size` evicts exactly the
least-recently-used key" is false: on a size-1 cache, after `set K1` and
`get K1`, inserting K2 evicts K2 itself — the most-recently-used key — and
keeps K1, because the head-replacement branch of `get`
(cache.py:410-412) set the tracking head to `None` and the subsequent
`append` made the freshly inserted node the head.  (On the unrepaired
source every insert raises `TypeError` before this point; see C9.) -/
theorem c1_lru_eviction :
    runKeys (runLRU (initCache String Nat (some 2)) lruOps2)
      = some ["k1", "k3"] ∧
    runKeys (runLRU (initCache String Nat (some 1)) lruOps1)
      = some ["k1"] := by
  exact ⟨by decide, by decide⟩

/-- The LFU scenario of the claim: K1, K2 into a size-2 cache, five reads
of K1, then insert K3. -/
def lfuOps8 : List (CacheOp String Nat) :=
  [.setOp "k1" 1, .setOp "k2" 2, .getOp "k1", .getOp "k1", .getOp "k1",
   .getOp "k1", .getOp "k1", .setOp "k3" 3]

/-- C2: under the payload-field reading, the claim's scenario holds (K2 is
evicted, K1 and K3 remain, with K1 at frequency 6 and K3 at frequency 1),
but the universal statement "the evicted entry is a member of the lowest
non-empty frequency bucket" is false: one further insert K4 evicts K1
(frequency 6) while K3 (frequency 1) stays, because `set` at capacity
detaches the frequency-1 bucket it is about to fill — `_evict` removes the
emptied head bucket (cache.py:571-572) and the key is then added to the
removed node (cache.py:555), leaving K3's bucket outside the tracking
list.  (On the unrepaired source every insert raises `AttributeError`
before this point; see C9.) -/
theorem c2_lfu_eviction :
    runKeys (runLFU (initCache String Nat (some 2)) lfuOps8)
      = some ["k1", "k3"] ∧
    runTrackValue (runLFU (initCache String Nat (some 2)) lfuOps8) "k1"
      = some (some 6) ∧
    runTrackValue (runLFU (initCache String Nat (some 2)) lfuOps8) "k3"
      = some (some 1) ∧
    runKeys (runLFU (initCache String Nat (some 2))
        (lfuOps8 ++ [.setOp "k4" 4]))
      = some ["k3", "k4"] := by
  exact ⟨by decide, by decide, by decide, by decide⟩

/-- `LRUClientCache.set` on a fresh key always raises `TypeError` as
written: cache.py:434 passes keyword `data` to `ListNode.__init__`. -/
theorem lruSetPy_typeError [DecidableEq K] (s : CacheState K V) (k : K)
    (v : V) (h : cacheLookup s.cache k = none) :
    lruSetPy s k v = .error .typeError := by
  simp only [lruSetPy, h, Option.isSome_none, Bool.false_eq_true, if_false]
  rfl

/-- `LFUClientCache.set` on a fresh key always raises `AttributeError` as
written: the first payload access reads attribute `data`
(cache.py:555 or, at capacity, cache.py:564). -/
theorem lfuSetPy_attrError [DecidableEq K] (s : CacheState K V) (k : K)
    (v : V) (h : cacheLookup s.cache k = none) :
    lfuSetPy s k v = .error .attributeError := by
  simp only [lfuSetPy, h, Option.isSome_none, Bool.false_eq_true, if_false]
  rfl

/-- Under the payload-field reading, an LRU insert of a fresh key below
capacity completes and the key becomes present. -/
theorem lruSet_fresh_ok [DecidableEq K] (s : CacheState K V) (k : K) (v : V)
    (h : cacheLookup s.cache k = none)
    (hcap : s.cache.length < s.max_size) :
    (match lruSet s k v with
     | .ok w => (cacheLookup w.cache k).isSome
     | .error _ => false) = true := by
  simp only [lruSet, h, Option.isSome_none, Bool.false_eq_true, if_false]
  unfold lruSetBody
  simp only [dllAppend_cache, dllAppend_max_size, List.length_append,
    List.length_cons, List.length_nil]
  rw [if_neg (by omega)]
  simp [dllAppend_cache, cacheLookup_append_self _ _ _ h]

/-- Under the payload-field reading, an LFU insert of a fresh key below
capacity completes and the key becomes present. -/
theorem lfuSet_fresh_ok [DecidableEq K] (s : CacheState K V) (k : K) (v : V)
    (h : cacheLookup s.cache k = none)
    (hcap : s.cache.length < s.max_size) :
    (match lfuSet s k v with
     | .ok w => (cacheLookup w.cache k).isSome
     | .error _ => false) = true := by
  simp only [lfuSet, h, Option.isSome_none, Bool.false_eq_true, if_false]
  unfold lfuSetBody lfuEvict
  have hnot : ¬ (s.cache.length ≥ s.max_size) := by omega
  cases hhd : s.head with
  | none =>
      simp [hnot, Except.instMonad, Except.bind, CacheState.setNode,
        cacheLookup_append_self _ _ _ h]
  | some f0 =>
      by_cases hf0 : (s.node f0).value = some 1 <;>
        simp [hf0, hnot, Except.instMonad, Except.bind, CacheState.setNode,
          cacheLookup_append_self _ _ _ h]

/-- C9: for every fresh key, `LRUClientCache.set` as written raises
`TypeError` — line 434 passes keyword `data` to `ListNode.__init__`, whose
parameters are only `value`, `items`, `previous_node`, `next_node` — and
`LFUClientCache.set` as written raises `AttributeError` — its first payload
access reads attribute `data`, which `ListNode` instances do not have.
Under the payload-field reading, an insert below capacity completes and
the key becomes present, as the claim intends. -/
theorem c9_set_insertion_paths [DecidableEq K] (s : CacheState K V)
    (k : K) (v : V)
    (h : cacheLookup s.cache k = none)
    (hcap : s.cache.length < s.max_size) :
    lruSetPy s k v = .error .typeError ∧
    lfuSetPy s k v = .error .attributeError ∧
    listNodeInitParams.contains "data" = false ∧
    listNodeAttrs.contains "data" = false ∧
    (match lruSet s k v with
     | .ok s' => (cacheLookup s'.cache k).isSome
     | .error _ => false) = true ∧
    (match lfuSet s k v with
     | .ok s' => (cacheLookup s'.cache k).isSome
     | .error _ => false) = true :=
  ⟨lruSetPy_typeError s k v h, lfuSetPy_attrError s k v h,
    by decide, by decide,
    lruSet_fresh_ok s k v h hcap, lfuSet_fresh_ok s k v h hcap⟩

/-- Witness for C9: inserting into the empty size-10 cache. -/
theorem c9_set_insertion_paths_witness :
    lruSetPy (initCache String Nat none) "k1" 1 = .error .typeError ∧
    lfuSetPy (initCache String Nat none) "k1" 1 = .error .attributeError ∧
    listNodeInitParams.contains "data" = false ∧
    listNodeAttrs.contains "data" = false ∧
    (match lruSet (initCache String Nat none) "k1" 1 with
     | .ok s' => (cacheLookup s'.cache "k1").isSome
     | .error _ => false) = true ∧
    (match lfuSet (initCache String Nat none) "k1" 1 with
     | .ok s' => (cacheLookup s'.cache "k1").isSome
     | .error _ => false) = true :=
  c9_set_insertion_paths (initCache String Nat none) "k1" 1
    (by decide) (by decide)

/-! ## The session facade (`BRSSession.client`) -/

/-- Modelled from the spec: the error taxonomy of §7.  The concrete classes
`BRSCacheError`, `BRSCacheExistsError`, `BRSCacheNotFoundError`, which
cache.py and internal.py import from the exceptions module, are not present
in the exceptions module under src/; §7 lists `CacheExistsError`,
`CacheNotFoundError` and `CacheTypeError` as the cache-error kinds that the
facade's insert-race logic may recover from, while Python builtins such as
`TypeError` and `AttributeError` are not library cache errors, so
`except BRSCacheError` does not catch them. -/
def isBRSCacheError : PyErr → Bool
  | .brsCacheError => true
  | .brsCacheExists => true
  | .brsCacheNotFound => true
  | _ => false

/-- The observable state of a `BRSSession` with respect to client
dispatch: the `cache_clients` flag, the LRU client cache (the
`BaseCache.new` default strategy), a count of `boto3.Session.client`
constructor invocations, and a count of credential refresh touches. -/
structure SessionState where
  cache_clients : Bool
  client_cache : CacheState ClientCacheKey Nat
  constructed : Nat
  refreshes : Nat

/-- `super().client(...)` (internal.py:289): constructing a fresh client
draws on the session's refreshable credentials, so a construction may
trigger a credential refresh; the embedding counts one refresh touch per
construction and hands out the construction counter as the client's
identity. -/
def superClient (s : SessionState) : Nat × SessionState :=
  (s.constructed,
    { s with constructed := s.constructed + 1, refreshes := s.refreshes + 1 })

/-- A fresh session with caching enabled and the default size-10 LRU cache
(internal.py:200-229). -/
def initSession : SessionState :=
  { cache_clients := true
    client_cache := initCache ClientCacheKey Nat none
    constructed := 0
    refreshes := 0 }

/-- `BRSSession.client` (internal.py:249-306) with the cache's payload
attribute repaired: when caching is enabled, a `service_name` keyword is
moved to the front of the positional arguments, the arguments are
normalized into a `ClientCacheKey`, a cache hit is returned directly, and
on a miss the freshly constructed client is inserted; a `BRSCacheError`
during insertion falls back to the now-cached client if any. -/
def brsClient (s : SessionState) (args : List PyVal)
    (kwargs : List (String × PyVal)) : Except PyErr (Nat × SessionState) :=
  if s.cache_clients then
    let (args2, kwargs2) := match dictGetStr kwargs "service_name" with
      | some v => (v :: args, kwargs.filter (fun p => !(p.1 == "service_name")))
      | none => (args, kwargs)
    let key := clientCacheKey args2 kwargs2
    match lruGet s.client_cache key with
    | .error e => .error e
    | .ok (some c, cc) => .ok (c, { s with client_cache := cc })
    | .ok (none, cc) =>
        let s1 : SessionState := { s with client_cache := cc }
        let (c, s2) := superClient s1
        match lruSet s2.client_cache key c with
        | .ok cc2 => .ok (c, { s2 with client_cache := cc2 })
        | .error e =>
            if isBRSCacheError e then
              match lruGet s2.client_cache key with
              | .error e2 => .error e2
              | .ok (some c2, cc2) => .ok (c2, { s2 with client_cache := cc2 })
              | .ok (none, cc2) => .ok (c, { s2 with client_cache := cc2 })
            else .error e
  else
    let (c, s1) := superClient s
    .ok (c, s1)

/-- `BRSSession.client` as the sources execute: identical dispatch, but the
cache operations are the literal ones, whose insertion path passes keyword
`data` to `ListNode.__init__` (see C9); the resulting `TypeError` is not a
`BRSCacheError`, so the `except BRSCacheError` clause (internal.py:297)
does not catch it. -/
def brsClientPy (s : SessionState) (args : List PyVal)
    (kwargs : List (String × PyVal)) : Except PyErr (Nat × SessionState) :=
  if s.cache_clients then
    let (args2, kwargs2) := match dictGetStr kwargs "service_name" with
      | some v => (v :: args, kwargs.filter (fun p => !(p.1 == "service_name")))
      | none => (args, kwargs)
    let key := clientCacheKey args2 kwargs2
    match lruGetPy s.client_cache key with
    | .error e => .error e
    | .ok (some c, cc) => .ok (c, { s with client_cache := cc })
    | .ok (none, cc) =>
        let s1 : SessionState := { s with client_cache := cc }
        let (c, s2) := superClient s1
        match lruSetPy s2.client_cache key c with
        | .ok cc2 => .ok (c, { s2 with client_cache := cc2 })
        | .error e =>
            if isBRSCacheError e then
              match lruGetPy s2.client_cache key with
              | .error e2 => .error e2
              | .ok (some c2, cc2) => .ok (c2, { s2 with client_cache := cc2 })
              | .ok (none, cc2) => .ok (c, { s2 with client_cache := cc2 })
            else .error e
  else
    let (c, s1) := superClient s
    .ok (c, s1)

/-- C6: on the literal sources the very first cached `client("s3")` call
raises `TypeError` out of the cache insert (the claim's scenario cannot
even reach its second call); with the cache's payload attribute repaired,
the dispatch logic satisfies the claim — two identical calls return the
same client object, the underlying constructor ran exactly once, and the
second (hit) call performs no credential refresh. -/
theorem c6_client_cache_idempotent :
    (match brsClientPy initSession [.pystr "s3"] [] with
     | .error .typeError => true
     | _ => false) = true ∧
    (match brsClient initSession [.pystr "s3"] [] with
     | .ok (c1, s1) =>
        (match brsClient s1 [.pystr "s3"] [] with
         | .ok (c2, s2) =>
            c1 == c2 && s2.constructed == 1 && s2.refreshes == s1.refreshes
         | .error _ => false)
     | .error _ => false) = true := by
  exact ⟨by decide, by decide⟩

/-! ## Custom credential validation
(`CustomRefreshableSession._get_credentials`) -/

/-- Values of a credentials mapping: strings, `datetime` objects, or
anything else. -/
inductive CredVal where
  | str (s : String)
  | datetime (d : Int)
  | num (n : Int)
  deriving DecidableEq

/-- The required credential fields
(`required_keys`, custom.py:183). -/
def requiredCredKeys : List String :=
  ["access_key", "secret_key", "token", "expiry_time"]

/-- The error data of `BRSCredentialError` as raised by
`_get_credentials`: either the sorted list of missing required keys
(`details={"missing": sorted(missing)}`, custom.py:185-189) or the
malformed-expiry condition (`param="expiry_time"`, custom.py:194-198). -/
inductive CredErr where
  | missingKeys (missing : List String)
  | badExpiryType
  deriving DecidableEq

/-- Insertion step for `sorted` on strings. -/
def insStr (x : String) : List String → List String
  | [] => [x]
  | y :: l => if strLe x y then x :: y :: l else y :: insStr x l

/-- Python `sorted` on a list of strings. -/
def sortStrs : List String → List String
  | [] => []
  | x :: l => insStr x (sortStrs l)

/-- `CustomRefreshableSession._get_credentials` (custom.py:178-200): call
the user callable (its result is this function's argument), compute
`missing = required_keys - credentials.keys()` and raise the credential
error naming `sorted(missing)` when non-empty; then coerce a `datetime`
expiry to its ISO string and reject a non-string expiry. -/
def customGetCredentials (creds : List (String × CredVal)) :
    Except CredErr (List (String × CredVal)) :=
  let missing := requiredCredKeys.filter
    (fun rk => !((creds.map Prod.fst).contains rk))
  if !missing.isEmpty then .error (.missingKeys (sortStrs missing))
  else
    match (creds.find? (fun p => p.1 == "expiry_time")).map Prod.snd with
    | some (.datetime d) =>
        .ok (creds.map (fun p =>
          if p.1 == "expiry_time" then (p.1, .str (toString d)) else p))
    | some (.str _) => .ok creds
    | _ => .error .badExpiryType

theorem insStr_perm (x : String) : ∀ l, (insStr x l).Perm (x :: l)
  | [] => List.Perm.refl _
  | y :: l => by
      by_cases h : strLe x y
      · simp [insStr, h]
      · simp only [insStr, if_neg h]
        exact ((insStr_perm x l).cons y).trans (List.Perm.swap x y l)

theorem sortStrs_perm : ∀ l, (sortStrs l).Perm l
  | [] => List.Perm.refl _
  | x :: l => (insStr_perm x (sortStrs l)).trans ((sortStrs_perm l).cons x)

/-- C7: whenever the custom credential source returns a mapping in which at
least one of the required fields is absent, `_get_credentials` raises the
credential error whose structured data is the sorted list of missing
required keys, and every absent required field appears in that list. -/
theorem c7_missing_credential_fields (creds : List (String × CredVal))
    (rk : String)
    (hmiss : requiredCredKeys.filter
      (fun rk2 => !((creds.map Prod.fst).contains rk2)) ≠ [])
    (hrk : rk ∈ requiredCredKeys)
    (hnot : ¬ rk ∈ creds.map Prod.fst) :
    customGetCredentials creds
      = .error (.missingKeys (sortStrs (requiredCredKeys.filter
          (fun rk2 => !((creds.map Prod.fst).contains rk2))))) ∧
    rk ∈ sortStrs (requiredCredKeys.filter
      (fun rk2 => !((creds.map Prod.fst).contains rk2))) := by
  constructor
  · have hne : (requiredCredKeys.filter
        (fun rk2 => !((creds.map Prod.fst).contains rk2))).isEmpty = false := by
      cases hl : requiredCredKeys.filter
          (fun rk2 => !((creds.map Prod.fst).contains rk2)) with
      | nil => exact absurd hl hmiss
      | cons a l => simp [List.isEmpty]
    simp only [customGetCredentials, hne, Bool.not_false, if_true]
  · have hmem : rk ∈ requiredCredKeys.filter
        (fun rk2 => !((creds.map Prod.fst).contains rk2)) := by
      rw [List.mem_filter]
      refine ⟨hrk, by simp [hnot]⟩
    exact ((sortStrs_perm _).mem_iff).mpr hmem

/-- Witness for C7: a mapping holding `access_key`, `secret_key` and
`expiry_time` but no `token`. -/
theorem c7_missing_credential_fields_witness :
    customGetCredentials
        [("access_key", .str "AK"), ("secret_key", .str "SK"),
         ("expiry_time", .str "E")]
      = .error (.missingKeys ["token"]) ∧
    "token" ∈ (["token"] : List String) :=
  c7_missing_credential_fields
    [("access_key", .str "AK"), ("secret_key", .str "SK"),
     ("expiry_time", .str "E")]
    "token" (by decide) (by decide) (by decide)

/-! ## The STS role-session-name default -/

/-- `STSRefreshableSession.__init__` (sts.py:225-228): the session name
sent to the assume-role call is
`assume_role_kwargs.get("RoleSessionName", "boto3-refresh-session")`. -/
def stsRoleSessionName (provided : Option String) : String :=
  provided.getD "boto3-refresh-session"

/-- C8 counterexample: a role-assumption session constructed without an
explicit session name does not default to `"default-session"`. -/
theorem c8_counterexample :
    ¬ (stsRoleSessionName none = "default-session") := by decide

/-- C8 amended: without an explicit session name the assume-role session
name defaults to `"boto3-refresh-session"` (as the class docstring also
states, sts.py:45-46); an explicitly provided name is kept. -/
theorem c8_session_name_default (s : String) :
    stsRoleSessionName none = "boto3-refresh-session" ∧
    stsRoleSessionName (some s) = s :=
  ⟨rfl, rfl⟩

/-! ## The strategy registry -/

/-- Whether the first list is an initial segment of the second. -/
def charsStarts : List Char → List Char → Bool
  | [], _ => true
  | _ :: _, [] => false
  | a :: as, b :: bs => a == b && charsStarts as bs

/-- Whether `pat` occurs as a contiguous subsequence. -/
def charsHasSub (pat : List Char) : List Char → Bool
  | [] => charsStarts pat []
  | l@(_ :: t) => charsStarts pat l || charsHasSub pat t

/-- Python's substring test `pat in s`. -/
def strContainsSub (s pat : String) : Bool :=
  charsHasSub pat.toList s.toList

/-- `cls.registry[registry_key] = cls` on the class-level dict: an existing
key keeps its position and gets the new class, a new key is appended. -/
def dictSetReplace {T : Type} (reg : List (String × T)) (key : String)
    (cls : T) : List (String × T) :=
  if (reg.map Prod.fst).contains key then
    reg.map (fun p => if p.1 == key then (key, cls) else p)
  else reg ++ [(key, cls)]

/-- `Registry.__init_subclass__` (internal.py:86-95): warn (non-fatally)
when the key is already registered, then add the subclass unless the key
contains the substring `"sentinel"`.  Returns the emitted warnings and the
updated registry. -/
def registerSubclass {T : Type} (reg : List (String × T)) (key : String)
    (cls : T) : List String × List (String × T) :=
  let warnings := if (reg.map Prod.fst).contains key
    then [key ++ " already registered. Overwriting."] else []
  if strContainsSub key "sentinel" then (warnings, reg)
  else (warnings, dictSetReplace reg key cls)

/-- The registry built from a sequence of subclass declarations, starting
from the empty class-level dict (internal.py:84). -/
def registerAll {T : Type} (decls : List (String × T)) : List (String × T) :=
  decls.foldl (fun reg d => (registerSubclass reg d.1 d.2).2) []

/-- Lookup in the registry dict. -/
def regLookup {T : Type} (reg : List (String × T)) (key : String) : Option T :=
  (reg.find? (fun p => p.1 == key)).map Prod.snd

/-- No key of the registry contains the substring `"sentinel"`. -/
def noSentinelKeys {T : Type} (reg : List (String × T)) : Bool :=
  (reg.map Prod.fst).all (fun k2 => !(strContainsSub k2 "sentinel"))

theorem beqFlipFalse {α : Type} [DecidableEq α] {a b : α}
    (h : (a == b) = false) : (b == a) = false := by
  cases hq : b == a
  · rfl
  · have hab : a = b := (eq_of_beq hq).symm
    rw [hab] at h
    simp at h

theorem map_fst_replace {T : Type} (key : String) (cls : T)
    (reg : List (String × T)) :
    ((reg.map (fun p => if p.1 == key then (key, cls) else p)).map Prod.fst)
      = reg.map Prod.fst := by
  have hfst : ∀ p : String × T,
      ((if p.1 == key then (key, cls) else p) : String × T).1 = p.1 := by
    intro p
    by_cases h : p.1 == key
    · simp [h, eq_of_beq h]
    · simp [h]
  induction reg with
  | nil => rfl
  | cons p t ih => simp only [List.map_cons, hfst, ih]

theorem registerSubclass_preserves {T : Type} (reg : List (String × T))
    (key : String) (cls : T) (hs : noSentinelKeys reg = true) :
    noSentinelKeys ((registerSubclass reg key cls).2) = true := by
  unfold registerSubclass
  by_cases hsent : strContainsSub key "sentinel"
  · simp [hsent, hs]
  · simp only [hsent, Bool.false_eq_true, if_false]
    unfold dictSetReplace
    by_cases hc : (reg.map Prod.fst).contains key
    · simp only [hc, if_true]
      unfold noSentinelKeys at hs ⊢
      rw [map_fst_replace]
      exact hs
    · simp only [hc, Bool.false_eq_true, if_false]
      unfold noSentinelKeys at hs ⊢
      simp [hs, hsent]

theorem registerAll_aux {T : Type} (decls : List (String × T)) :
    ∀ reg : List (String × T), noSentinelKeys reg = true →
      noSentinelKeys (decls.foldl
        (fun reg2 d => (registerSubclass reg2 d.1 d.2).2) reg) = true := by
  induction decls with
  | nil => exact fun _ h => h
  | cons d t ih =>
      intro reg h
      exact ih _ (registerSubclass_preserves reg d.1 d.2 h)

theorem regLookup_replace {T : Type} (key : String) (cls : T) :
    ∀ reg : List (String × T), (reg.map Prod.fst).contains key = true →
      regLookup (reg.map (fun p => if p.1 == key then (key, cls) else p)) key
        = some cls
  | [], h => by simp at h
  | p :: t, h => by
      by_cases hp : p.1 == key
      · simp [regLookup, List.find?, hp]
      · have hpf : (p.1 == key) = false := by
          cases hq : p.1 == key
          · rfl
          · exact absurd hq hp
        have hc2 : (t.map Prod.fst).contains key = true := by
          simp only [List.map_cons, List.contains_cons,
            beqFlipFalse hpf, Bool.false_or] at h
          exact h
        simp only [List.map_cons, regLookup, List.find?, hp, if_false,
          Bool.false_eq_true]
        exact regLookup_replace key cls t hc2

theorem regLookup_append_fresh {T : Type} (key : String) (cls : T) :
    ∀ reg : List (String × T), (reg.map Prod.fst).contains key = false →
      regLookup (reg ++ [(key, cls)]) key = some cls
  | [], _ => by simp [regLookup, List.find?]
  | p :: t, h => by
      simp only [List.map_cons, List.contains_cons, Bool.or_eq_false_iff] at h
      have hp : (p.1 == key) = false := beqFlipFalse h.1
      simp only [List.cons_append, regLookup, List.find?, hp]
      exact regLookup_append_fresh key cls t h.2

theorem regLookup_setReplace {T : Type} (reg : List (String × T))
    (key : String) (cls : T) :
    regLookup (dictSetReplace reg key cls) key = some cls := by
  unfold dictSetReplace
  cases hc : (reg.map Prod.fst).contains key with
  | true => simpa [hc] using regLookup_replace key cls reg hc
  | false => simpa [hc] using regLookup_append_fresh key cls reg hc

/-- C10: a subclass whose registry key contains `"sentinel"` (such as the
abstract bases registered under `"__sentinel__"` and `"__iot_sentinel__"`)
is skipped; a subclass with a non-sentinel key is added, replacing any
existing entry for that key, with the non-fatal overwrite warning emitted
exactly when the key was already present; consequently no registry
reachable from the empty class-level dict ever holds a key containing
`"sentinel"`. -/
theorem c10_registry_sentinel {T : Type} (reg : List (String × T))
    (key₁ key₂ : String) (cls : T) (decls : List (String × T))
    (hs : noSentinelKeys reg = true)
    (h1 : strContainsSub key₁ "sentinel" = true)
    (h2 : strContainsSub key₂ "sentinel" = false) :
    (registerSubclass reg key₁ cls).2 = reg ∧
    regLookup ((registerSubclass reg key₂ cls).2) key₂ = some cls ∧
    (registerSubclass reg key₂ cls).1
      = (if (reg.map Prod.fst).contains key₂
         then [key₂ ++ " already registered. Overwriting."] else []) ∧
    noSentinelKeys ((registerSubclass reg key₂ cls).2) = true ∧
    noSentinelKeys (registerAll decls) = true ∧
    strContainsSub "__sentinel__" "sentinel" = true ∧
    strContainsSub "__iot_sentinel__" "sentinel" = true := by
  refine ⟨?_, ?_, ?_, registerSubclass_preserves reg key₂ cls hs,
    registerAll_aux decls [] rfl, by decide, by decide⟩
  · simp [registerSubclass, h1]
  · simp only [registerSubclass, h2, Bool.false_eq_true, if_false]
    exact regLookup_setReplace reg key₂ cls
  · simp [registerSubclass, h2]

/-- Witness for C10: a registry holding `"sts"`, the sentinel key
`"__sentinel__"`, the fresh key `"custom"`, and a declaration sequence
mixing sentinel and ordinary keys. -/
theorem c10_registry_sentinel_witness :
    (registerSubclass [("sts", 0)] "__sentinel__" 1).2 = [("sts", 0)] ∧
    regLookup ((registerSubclass [("sts", 0)] "custom" 1).2) "custom"
      = some 1 ∧
    (registerSubclass [("sts", 0)] "custom" 1).1
      = (if (([("sts", (0 : Nat))] : List (String × Nat)).map
            Prod.fst).contains "custom"
         then ["custom already registered. Overwriting."] else []) ∧
    noSentinelKeys ((registerSubclass [("sts", 0)] "custom" 1).2) = true ∧
    noSentinelKeys (registerAll
        [("__sentinel__", 0), ("sts", 1), ("custom", 2)]) = true ∧
    strContainsSub "__sentinel__" "sentinel" = true ∧
    strContainsSub "__iot_sentinel__" "sentinel" = true :=
  c10_registry_sentinel [("sts", 0)] "__sentinel__" "custom" 1
    [("__sentinel__", 0), ("sts", 1), ("custom", 2)]
    (by decide) (by decide) (by decide)

end BRS
